import Mathlib

/-
  Verification of the process-supervision core of dev/start_mock_agents.py.

  The script launches one child process per configured agent file
  (start_agents), polls the handle set once per second reporting each
  process the first time it is observed dead (monitor_processes /
  handle_dead_agent), and on a keyboard interrupt terminates, waits for,
  and if necessary kills every process (shutdown_agents).

  The embedding below translates those functions into pure Lean
  definitions.  OS processes are replaced by descriptors recording when
  a process exits; time is discrete (one monitor poll cycle or one
  shutdown time unit = 1).  Logging calls become trace events.
-/

namespace StartMockAgents

/-- Exit codes of the script (lines 45-49 of the source). -/
def EXIT_SUCCESS : Nat := 0

/-- Exit code for a missing or invalid configuration file. -/
def EXIT_CONFIG_ERROR : Nat := 1

/-- Exit code when the agent directory or agent.py is absent. -/
def EXIT_AGENT_DIR_NOT_FOUND : Nat := 2

/-- Exit code when no valid agents remain to start. -/
def EXIT_NO_AGENTS : Nat := 3

/-- Exit code when the operator aborts at the confirmation prompt. -/
def EXIT_USER_ABORT : Nat := 130

/-- PROCESS_TERMINATE_TIMEOUT = 5.0 seconds (line 61): the grace period a
process is given after terminate before it is killed. -/
def PROCESS_TERMINATE_TIMEOUT : Nat := 5

/-- One entry of the logged output.  `exited` is the warning
"Agent name exited with code d" of handle_dead_agent; `outLine` is one
captured output line attributed to the agent; `allExited` is the
"All agents have exited" message; `interrupted` is
"Received interrupt signal". -/
inductive LogEntry where
  | exited (name : String) (code : Int)
  | outLine (name : String) (line : String)
  | allExited
  | interrupted
deriving Repr, DecidableEq

/-- handle_dead_agent (lines 351-368).  Logs the exit code; then, when a
stdout stream exists and the read output is non-empty, logs every element
of output.strip().split (which Lean renders as trim / splitOn),
attributed to the agent name. -/
def handle_dead_agent (name : String) (returncode : Int)
    (stdout : Option String) : List LogEntry :=
  LogEntry.exited name returncode ::
    (match stdout with
     | none => []
     | some output =>
       if output = "" then []
       else (output.trim.splitOn "\n").map (fun line => LogEntry.outLine name line))

/-- A monitored process descriptor: the tuple (name, proc) of the source
together with the observable behavior of proc.  `exitAt` is the poll
cycle from which proc.poll() returns an exit code (none: the process
never exits during monitoring); `code` is that exit code; `out` is the
combined captured output proc.stdout.read() would deliver. -/
structure MProc where
  name : String
  exitAt : Option Nat
  code : Int
  out : String
deriving Repr, DecidableEq

/-- proc.poll() at cycle t: the exit code once the process has exited,
none while it is still running. -/
def pollAt (p : MProc) (t : Nat) : Option Int :=
  match p.exitAt with
  | none => none
  | some e => if e ≤ t then some p.code else none

/-- The mutable state of monitor_processes: the handle list `processes`,
the set `reported_dead` of names already reported (a list used as a set),
and the log produced so far. -/
structure MonState where
  procs : List MProc
  reported : List String
  trace : List LogEntry
deriving Repr, DecidableEq

/-- The body of the for-loop of monitor_processes (lines 386-395) over a
remaining list of handles at cycle t, threading the running count
alive_count and the state. -/
def pollList (t : Nat) : List MProc → Nat × MonState → Nat × MonState
  | [], acc => acc
  | p :: rest, (alive, st) =>
    match pollAt p t with
    | none => pollList t rest (alive + 1, st)
    | some code =>
      if p.name ∈ st.reported then pollList t rest (alive, st)
      else
        pollList t rest
          (alive,
            { st with
              reported := p.name :: st.reported,
              trace := st.trace ++ handle_dead_agent p.name code (some p.out) })

/-- One full poll cycle at cycle index t: scan every handle, returning
alive_count together with the updated state. -/
def pollCycle (t : Nat) (st : MonState) : Nat × MonState :=
  pollList t st.procs (0, st)

/-- How the monitor loop ended: all processes were observed exited
(natural break at alive_count = 0), a KeyboardInterrupt arrived, or the
modelling fuel ran out before either happened. -/
inductive MonOutcome where
  | natural
  | cancelled
  | fuelOut
deriving Repr, DecidableEq

/-- Result of the monitor loop: the outcome, the final state, and
`cyclesRun`, the number of fully executed poll cycles (cycles
0 .. cyclesRun - 1 ran to completion). -/
structure MonResult where
  outcome : MonOutcome
  state : MonState
  cyclesRun : Nat
deriving Repr, DecidableEq

/-- Whether the external KeyboardInterrupt (modelled as arriving during
the sleep preceding cycle `cancelAt`) interrupts the loop before
cycle t runs. -/
def cancelHits : Option Nat → Nat → Bool
  | none, _ => false
  | some c, t => c ≤ t

/-- The while-loop of monitor_processes (lines 382-401).  Each iteration
first observes a pending interrupt (the loop is interruptible between
poll cycles, at the sleep), otherwise runs one poll cycle, breaks with
"All agents have exited" when alive_count = 0, and else sleeps and
continues.  `fuel` bounds the number of iterations so the definition is
total; a run that exhausts fuel ends with outcome fuelOut. -/
def monitorLoop (cancelAt : Option Nat) : Nat → Nat → MonState → MonResult
  | 0, t, st => ⟨MonOutcome.fuelOut, st, t⟩
  | fuel + 1, t, st =>
    if cancelHits cancelAt t then
      ⟨MonOutcome.cancelled, { st with trace := st.trace ++ [LogEntry.interrupted] }, t⟩
    else
      let a := pollCycle t st
      if a.1 = 0 then
        ⟨MonOutcome.natural, { a.2 with trace := a.2.trace ++ [LogEntry.allExited] }, t + 1⟩
      else monitorLoop cancelAt fuel (t + 1) a.2

/-- Result of monitor_processes as a whole: the loop result plus whether
the except-KeyboardInterrupt handler invoked shutdown_agents. -/
structure SuperviseResult where
  run : MonResult
  shutdownInvoked : Bool
deriving Repr, DecidableEq

/-- monitor_processes (lines 371-405): run the poll loop from cycle 0
with an empty reported_dead set; shutdown_agents is invoked exactly in
the KeyboardInterrupt handler, i.e. when the loop ended cancelled. -/
def monitor_processes (procs : List MProc) (cancelAt : Option Nat)
    (fuel : Nat) : SuperviseResult :=
  let r := monitorLoop cancelAt fuel 0 ⟨procs, [], []⟩
  { run := r, shutdownInvoked := decide (r.outcome = MonOutcome.cancelled) }

/-- Whether a log entry is the failure report (the exit warning of
handle_dead_agent) for the agent called n. -/
def isReportFor (n : String) : LogEntry → Bool
  | LogEntry.exited m _ => m = n
  | _ => false

/-- Number of failure reports for the agent called n in a trace: each
call of handle_dead_agent contributes exactly one `exited` entry. -/
def countReports (n : String) (tr : List LogEntry) : Nat :=
  tr.countP (isReportFor n)

/-- A process whose exit is observable within the first k poll cycles
(cycles 0 .. k-1), i.e. that exits during a run of k cycles. -/
def observedBy (p : MProc) (k : Nat) : Bool :=
  match p.exitAt with
  | none => false
  | some e => e < k

/-
  Shutdown coordinator (shutdown_agents, lines 408-434).

  Shutdown time is measured from the moment shutdown_agents is entered;
  the terminate requests of the first for-loop are modelled as all sent
  at time 0 (the loop performs no waiting).  The second for-loop then
  performs the sequential proc.wait(timeout = PROCESS_TERMINATE_TIMEOUT)
  calls, each starting when the previous one returned, killing on a
  TimeoutExpired.
-/

/-- A shutdown-phase process descriptor: `alreadyExited` records whether
proc.poll() already returns an exit code when shutdown begins (such a
handle receives no terminate request); `exitAt` is the absolute time,
measured from shutdown start, at which the process exits after the
terminate request (none: it ignores the request and never exits on its
own). -/
structure SProc where
  name : String
  alreadyExited : Bool
  exitAt : Option Nat
deriving Repr, DecidableEq

/-- The time at which proc.wait observes the process exited: an already
exited process behaves as having exited at time 0. -/
def SProc.effExit (p : SProc) : Option Nat :=
  if p.alreadyExited then some 0 else p.exitAt

/-- One event of the shutdown trace: proc.terminate() sent, proc.wait
returned at time t, or proc.kill() issued at time t. -/
inductive SEvent where
  | term (name : String)
  | waited (name : String) (t : Nat)
  | killed (name : String) (t : Nat)
deriving Repr, DecidableEq

/-- Whether an event is a terminate request. -/
def SEvent.isTerm : SEvent → Bool
  | SEvent.term _ => true
  | _ => false

/-- The state threaded through shutdown_agents: the handle list, the
event trace, and the current time. -/
structure SState where
  procs : List SProc
  trace : List SEvent
  time : Nat
deriving Repr, DecidableEq

/-- Phase 1 (lines 420-423): send proc.terminate() to every handle whose
poll() is still None; already exited handles are skipped.  No waiting
happens, so the state clock does not advance. -/
def phase1S : List SProc → SState → SState
  | [], st => st
  | p :: rest, st =>
    if p.alreadyExited then phase1S rest st
    else phase1S rest { st with trace := st.trace ++ [SEvent.term p.name] }

/-- The event proc.wait(timeout = grace) / except proc.kill() produces
when started at time t (lines 427-432): the wait returns as soon as the
process is exited — at time t if it already was, at its exit time if
that falls within the timeout window — and on TimeoutExpired the process
is killed at t + grace. -/
def waitEvent (p : SProc) (t : Nat) : SEvent :=
  match p.effExit with
  | some e =>
    if e ≤ t + PROCESS_TERMINATE_TIMEOUT then SEvent.waited p.name (max t e)
    else SEvent.killed p.name (t + PROCESS_TERMINATE_TIMEOUT)
  | none => SEvent.killed p.name (t + PROCESS_TERMINATE_TIMEOUT)

/-- The time at which the wait on p, started at time t, returns (the
kill itself is immediate). -/
def nextTime (p : SProc) (t : Nat) : Nat :=
  match p.effExit with
  | some e => if e ≤ t + PROCESS_TERMINATE_TIMEOUT then max t e else t + PROCESS_TERMINATE_TIMEOUT
  | none => t + PROCESS_TERMINATE_TIMEOUT

/-- Phase 2 (lines 426-432): wait for each handle in order; each wait
starts when the previous one returned. -/
def phase2S : List SProc → SState → SState
  | [], st => st
  | p :: rest, st =>
    phase2S rest
      { st with
        trace := st.trace ++ [waitEvent p st.time],
        time := nextTime p st.time }

/-- shutdown_agents (lines 408-434): phase 1 over the whole handle
list, then phase 2 over the whole handle list. -/
def shutdown_agentsS (st : SState) : SState :=
  phase2S st.procs (phase1S st.procs st)

/-- shutdown_agents launched on a fresh handle list at shutdown time 0
with an empty trace. -/
def shutdown_agents (ps : List SProc) : SState :=
  shutdown_agentsS { procs := ps, trace := [], time := 0 }

/-- Whether a shutdown event is a kill of the agent called n. -/
def isKillFor (n : String) : SEvent → Bool
  | SEvent.killed m _ => m = n
  | _ => false

/-- Number of kill events for the agent called n in a shutdown trace. -/
def countKills (n : String) (tr : List SEvent) : Nat :=
  tr.countP (isKillFor n)

/-- The agent a shutdown event concerns. -/
def SEvent.agent : SEvent → String
  | SEvent.term n => n
  | SEvent.waited n _ => n
  | SEvent.killed n _ => n

/-- The phase-2 trace as a pure list: the wait/kill events in handle
order, with the clock advancing by nextTime. -/
def phase2Trace : List SProc → Nat → List SEvent
  | [], _ => []
  | p :: rest, t => waitEvent p t :: phase2Trace rest (nextTime p t)

/-- The terminate requests phase 1 sends, in handle order. -/
def termEvents (ps : List SProc) : List SEvent :=
  ps.filterMap (fun p => if p.alreadyExited then none else some (SEvent.term p.name))

/-- The time at which the phase-2 wait on the handle called n begins,
when the waits over ps start at time t (specification bookkeeping
mirroring the phase-2 clock). -/
def waitStartIn : List SProc → Nat → String → Nat
  | [], t, _ => t
  | p :: rest, t, n => if p.name = n then t else waitStartIn rest (nextTime p t) n

/-- Whether the wait on p started at time s ends in a kill: the process
never exits, or exits only after s + grace. -/
def beyondGrace (p : SProc) (s : Nat) : Bool :=
  match p.effExit with
  | some e => decide (s + PROCESS_TERMINATE_TIMEOUT < e)
  | none => true

/-- Whether the process exits within the grace period measured from its
terminate request, which is sent at shutdown time 0. -/
def exitsWithinGrace (p : SProc) : Bool :=
  match p.exitAt with
  | some e => decide (e ≤ PROCESS_TERMINATE_TIMEOUT)
  | none => false

/-
  Launcher (start_agents, lines 300-348) and the surrounding parts of
  main that the claims reference.
-/

/-- One event of the launch log: the warning "Agent file not found,
skipping" or a successful start. -/
inductive LaunchEvent where
  | warnMissing (name : String)
  | started (name : String)
deriving Repr, DecidableEq

/-- The for-loop of start_agents (lines 334-346): skip, with a warning,
every agent file that does not exist; start a process for every one that
does, collecting the (agent_yaml, proc) list in input order.  The
second component lists the names of the started processes. -/
def launchLoop (fileExists : String → Bool) : List String → List LaunchEvent × List String
  | [] => ([], [])
  | a :: rest =>
    let r := launchLoop fileExists rest
    if fileExists a then (LaunchEvent.started a :: r.1, a :: r.2)
    else (LaunchEvent.warnMissing a :: r.1, r.2)

/-- start_agents (lines 300-348): abort with EXIT_AGENT_DIR_NOT_FOUND
when agent.py itself is missing, otherwise run the launch loop. -/
def start_agents (scriptExists : Bool) (fileExists : String → Bool)
    (agents : List String) : Except Nat (List LaunchEvent × List String) :=
  if scriptExists then Except.ok (launchLoop fileExists agents)
  else Except.error EXIT_AGENT_DIR_NOT_FOUND

/-- The post-launch check of main (lines 526-536): if start_agents
returned an empty process list, exit with EXIT_NO_AGENTS; otherwise the
run continues with the started processes. -/
def mainLaunchPhase (scriptExists : Bool) (fileExists : String → Bool)
    (agents : List String) : Except Nat (List String) :=
  match start_agents scriptExists fileExists agents with
  | Except.error c => Except.error c
  | Except.ok r => if r.2 = [] then Except.error EXIT_NO_AGENTS else Except.ok r.2

/-- What reading the confirmation response can yield: an input line, an
end of input (EOFError), or a KeyboardInterrupt. -/
inductive InputResult where
  | line (s : String)
  | eofEnd
  | interrupt
deriving Repr, DecidableEq

/-- Python str.lower on the response string, character by character. -/
def strLower (s : String) : String :=
  String.mk (s.data.map Char.toLower)

/-- The reachability confirmation gate of main (lines 511-521): when
crossbar is reachable the run proceeds; otherwise the operator is asked
and the run proceeds only on a response whose lower-case form is "y";
any other response, an EOFError or a KeyboardInterrupt exit with
EXIT_USER_ABORT.  Returns the exit code on abort, none to proceed. -/
def confirmGate (reachable : Bool) (resp : InputResult) : Option Nat :=
  if reachable then none
  else
    match resp with
    | InputResult.line r => if strLower r = "y" then none else some EXIT_USER_ABORT
    | InputResult.eofEnd => some EXIT_USER_ABORT
    | InputResult.interrupt => some EXIT_USER_ABORT

/-- The tail of main from the reachability gate through launching
(lines 508-536): on an abort at the gate the run exits before
start_agents is reached, so no launch events occur and no processes are
started. -/
def mainFromGate (reachable : Bool) (resp : InputResult) (scriptExists : Bool)
    (fileExists : String → Bool) (agents : List String) :
    Except Nat (List String) × List LaunchEvent :=
  match confirmGate reachable resp with
  | some c => (Except.error c, [])
  | none =>
    match start_agents scriptExists fileExists agents with
    | Except.error c => (Except.error c, [])
    | Except.ok r =>
      (if r.2 = [] then Except.error EXIT_NO_AGENTS else Except.ok r.2, r.1)

/-- The per-handle timeout property claimed of the shutdown coordinator:
for every handle that received a terminate request, escalation to a kill
happens exactly when the handle fails to exit within the grace period
measured from when its terminate request was sent (shutdown time 0) —
one kill when it exceeds that window or never exits, none otherwise. -/
def graceFromSendDeadline (ps : List SProc) : Prop :=
  ∀ p ∈ ps, p.alreadyExited = false →
    countKills p.name (shutdown_agents ps).trace
      = (match p.exitAt with
         | some e => if PROCESS_TERMINATE_TIMEOUT < e then 1 else 0
         | none => 1)

/-- The kill discipline claimed of the shutdown coordinator: a handle
that exits within the grace period after its terminate request (sent at
shutdown time 0) is never killed, and a handle that does not is killed
exactly once. -/
def killIffNotWithinGrace (ps : List SProc) : Prop :=
  ∀ p ∈ ps, p.alreadyExited = false →
    (exitsWithinGrace p = true →
      countKills p.name (shutdown_agents ps).trace = 0) ∧
    (exitsWithinGrace p = false →
      countKills p.name (shutdown_agents ps).trace = 1)

/-
  Helper lemmas.
-/

lemma countReports_append (n : String) (t1 t2 : List LogEntry) :
    countReports n (t1 ++ t2) = countReports n t1 + countReports n t2 := by
  simp [countReports, List.countP_append]

lemma countReports_outLines (n m : String) (ls : List String) :
    countReports n (ls.map (LogEntry.outLine m)) = 0 := by
  induction ls with
  | nil => rfl
  | cons l rest ih =>
    simp only [List.map_cons, countReports, List.countP_cons, isReportFor] at *
    simp [ih]

lemma countReports_handle (n m : String) (c : Int) (o : Option String) :
    countReports n (handle_dead_agent m c o) = if m = n then 1 else 0 := by
  have hmap : ∀ ls : List String,
      (ls.map (fun line => LogEntry.outLine m line)).countP (isReportFor n) = 0 := by
    intro ls
    simpa [countReports] using countReports_outLines n m ls
  cases o with
  | none =>
    simp [handle_dead_agent, countReports, List.countP_cons, isReportFor]
  | some s =>
    by_cases hs : s = "" <;>
      simp [handle_dead_agent, countReports, List.countP_cons, isReportFor, hs, hmap]

/-
  Claim C7 — handle_dead_agent report content.
-/

/-- Claim C7: the report for an exited process starts with its exit
status entry; when the captured output is empty only the exit status is
logged; otherwise the remainder of the report is exactly the list of
lines of the (stripped) captured output, each attributed to the
process's name. -/
theorem claim_C7 (name : String) (code : Int) (out : String) :
    (handle_dead_agent name code (some out)).head? = some (LogEntry.exited name code) ∧
    (out = "" → handle_dead_agent name code (some out) = [LogEntry.exited name code]) ∧
    (out ≠ "" → (handle_dead_agent name code (some out)).tail
        = (out.trim.splitOn "\n").map (LogEntry.outLine name)) := by
  refine ⟨rfl, fun h => by simp [handle_dead_agent, h], fun h => by simp [handle_dead_agent, h]⟩

/-- Witness for C7 at concrete inputs: a two-line output and an empty
output. -/
theorem claim_C7_witness :
    (("x\ny" : String) ≠ "" ∧ (handle_dead_agent "a" 2 (some "x\ny")).tail
        = ("x\ny".trim.splitOn "\n").map (LogEntry.outLine "a"))
    ∧ handle_dead_agent "b" 3 (some "") = [LogEntry.exited "b" 3] :=
  ⟨⟨by decide, (claim_C7 "a" 2 "x\ny").2.2 (by decide)⟩,
   (claim_C7 "b" 3 "").2.1 rfl⟩

/-
  Claim C9 — EOF / interrupt at the confirmation gate.
-/

/-- Claim C9: with crossbar unreachable, an EOF or an interrupt while
reading the confirmation response makes the run exit with
EXIT_USER_ABORT with no processes launched, exactly as an explicit
decline does. -/
theorem claim_C9 (resp : InputResult) (scriptExists : Bool)
    (fileExists : String → Bool) (agents : List String)
    (h : resp = InputResult.eofEnd ∨ resp = InputResult.interrupt) :
    mainFromGate false resp scriptExists fileExists agents
      = (Except.error EXIT_USER_ABORT, [])
    ∧ mainFromGate false resp scriptExists fileExists agents
      = mainFromGate false (InputResult.line "n") scriptExists fileExists agents := by
  have hny : strLower "n" ≠ "y" := by decide
  have hn : mainFromGate false (InputResult.line "n") scriptExists fileExists agents
      = (Except.error EXIT_USER_ABORT, []) := by
    simp [mainFromGate, confirmGate, hny]
  rcases h with h | h <;> subst h <;>
    exact ⟨by simp [mainFromGate, confirmGate],
           by rw [hn]; simp [mainFromGate, confirmGate]⟩

/-- Witness for C9: the EOF case on a concrete configuration. -/
theorem claim_C9_witness :
    mainFromGate false InputResult.eofEnd true (fun _ => true) ["x.yaml"]
      = (Except.error EXIT_USER_ABORT, []) :=
  (claim_C9 InputResult.eofEnd true (fun _ => true) ["x.yaml"] (Or.inl rfl)).1

/-
  Launcher lemmas and claims C6 / C8.
-/

lemma launchLoop_snd (fileExists : String → Bool) (agents : List String) :
    (launchLoop fileExists agents).2 = agents.filter fileExists := by
  induction agents with
  | nil => rfl
  | cons a rest ih =>
    by_cases h : fileExists a <;> simp [launchLoop, h, ih, List.filter_cons]

lemma launchLoop_warn (fileExists : String → Bool) :
    ∀ (agents : List String) (a : String), a ∈ agents → fileExists a = false →
      LaunchEvent.warnMissing a ∈ (launchLoop fileExists agents).1 := by
  intro agents
  induction agents with
  | nil => intro a ha; exact absurd ha (List.not_mem_nil a)
  | cons b rest ih =>
    intro a ha hfe
    rcases List.mem_cons.mp ha with h | h
    · subst h
      simp [launchLoop, hfe]
    · by_cases hb : fileExists b <;> simp [launchLoop, hb, ih a h hfe]

/-- Claim C6: an agent identifier whose backing file is absent is
skipped with a warning and never started; the run continues past
launching whenever some configured identifier has its file (the launch
phase yields a non-empty process list); and when no identifier has its
file, zero processes start and the run aborts with EXIT_NO_AGENTS. -/
theorem claim_C6 (fileExists : String → Bool) (agents : List String) :
    (∀ a ∈ agents, fileExists a = false →
        LaunchEvent.warnMissing a ∈ (launchLoop fileExists agents).1 ∧
        a ∉ (launchLoop fileExists agents).2) ∧
    ((∃ b ∈ agents, fileExists b = true) →
        ∃ ps, mainLaunchPhase true fileExists agents = Except.ok ps ∧ ps ≠ []) ∧
    ((∀ a ∈ agents, fileExists a = false) →
        mainLaunchPhase true fileExists agents = Except.error EXIT_NO_AGENTS) := by
  refine ⟨fun a ha hfe => ⟨launchLoop_warn fileExists agents a ha hfe, ?_⟩, ?_, ?_⟩
  · rw [launchLoop_snd]
    intro hmem
    exact absurd (List.of_mem_filter hmem) (by simp [hfe])
  · rintro ⟨b, hb, hfb⟩
    have hne : (launchLoop fileExists agents).2 ≠ [] := by
      rw [launchLoop_snd]
      intro hnil
      exact absurd hnil (List.ne_nil_of_mem (List.mem_filter.mpr ⟨hb, hfb⟩))
    refine ⟨(launchLoop fileExists agents).2, ?_, hne⟩
    simp [mainLaunchPhase, start_agents, hne]
  · intro hall
    have hnil : (launchLoop fileExists agents).2 = [] := by
      rw [launchLoop_snd]
      refine List.filter_eq_nil_iff.mpr ?_
      intro a ha
      simp [hall a ha]
    simp [mainLaunchPhase, start_agents, hnil]

/-- Witness for C6: agents ["m.yaml", "x.yaml"] where only x.yaml
exists, and a second configuration where no file exists. -/
theorem claim_C6_witness :
    (LaunchEvent.warnMissing "m.yaml"
        ∈ (launchLoop (fun a => a = "x.yaml") ["m.yaml", "x.yaml"]).1 ∧
      "m.yaml" ∉ (launchLoop (fun a => a = "x.yaml") ["m.yaml", "x.yaml"]).2) ∧
    (∃ ps, mainLaunchPhase true (fun a => a = "x.yaml") ["m.yaml", "x.yaml"]
        = Except.ok ps ∧ ps ≠ []) ∧
    mainLaunchPhase true (fun _ => false) ["m.yaml"] = Except.error EXIT_NO_AGENTS :=
  ⟨(claim_C6 (fun a => a = "x.yaml") ["m.yaml", "x.yaml"]).1 "m.yaml" (by decide) (by decide),
   (claim_C6 (fun a => a = "x.yaml") ["m.yaml", "x.yaml"]).2.1 ⟨"x.yaml", by decide, by decide⟩,
   (claim_C6 (fun _ => false) ["m.yaml"]).2.2 (fun a _ => rfl)⟩

/-- Counterexample to claim C8 as stated: with the same identifier
configured twice (and its file present), the launcher starts two
processes with the same name, so the handle set does contain two handles
with one name. -/
theorem claim_C8_cex :
    ¬ ((launchLoop (fun _ => true) ["a.yaml", "a.yaml"]).2).Nodup := by
  decide

/-- Claim C8 amended: the launcher performs no deduplication — the
started names are exactly the configured identifiers whose files exist,
in configured order — so each name maps to exactly one handle provided
the configured identifier list itself has no duplicates. -/
theorem claim_C8_amended (fileExists : String → Bool) (agents : List String) :
    (launchLoop fileExists agents).2 = agents.filter fileExists ∧
    (agents.Nodup → ((launchLoop fileExists agents).2).Nodup) := by
  refine ⟨launchLoop_snd fileExists agents, fun h => ?_⟩
  rw [launchLoop_snd]
  exact h.filter fileExists

/-- Witness for the amended C8 at a duplicate-free configuration. -/
theorem claim_C8_amended_witness :
    (launchLoop (fun _ => true) ["a.yaml", "b.yaml"]).2
        = ["a.yaml", "b.yaml"].filter (fun _ => true) ∧
    ((launchLoop (fun _ => true) ["a.yaml", "b.yaml"]).2).Nodup :=
  ⟨(claim_C8_amended (fun _ => true) ["a.yaml", "b.yaml"]).1,
   (claim_C8_amended (fun _ => true) ["a.yaml", "b.yaml"]).2 (by decide)⟩

/-
  Shutdown lemmas.
-/

lemma phase1S_trace : ∀ (ps : List SProc) (st : SState),
    (phase1S ps st).trace = st.trace ++ termEvents ps := by
  intro ps
  induction ps with
  | nil => intro st; simp [phase1S, termEvents]
  | cons p rest ih =>
    intro st
    by_cases h : p.alreadyExited <;>
      simp [phase1S, h, termEvents, ih, List.filterMap_cons]

lemma phase1S_time : ∀ (ps : List SProc) (st : SState),
    (phase1S ps st).time = st.time := by
  intro ps
  induction ps with
  | nil => intro st; rfl
  | cons p rest ih =>
    intro st
    by_cases h : p.alreadyExited <;> simp [phase1S, h, ih]

lemma phase1S_procs : ∀ (ps : List SProc) (st : SState),
    (phase1S ps st).procs = st.procs := by
  intro ps
  induction ps with
  | nil => intro st; rfl
  | cons p rest ih =>
    intro st
    by_cases h : p.alreadyExited <;> simp [phase1S, h, ih]

lemma phase2S_trace : ∀ (ps : List SProc) (st : SState),
    (phase2S ps st).trace = st.trace ++ phase2Trace ps st.time := by
  intro ps
  induction ps with
  | nil => intro st; simp [phase2S, phase2Trace]
  | cons p rest ih =>
    intro st
    simp [phase2S, phase2Trace, ih]

lemma phase2S_procs : ∀ (ps : List SProc) (st : SState),
    (phase2S ps st).procs = st.procs := by
  intro ps
  induction ps with
  | nil => intro st; rfl
  | cons p rest ih => intro st; simp [phase2S, ih]

lemma shutdown_agents_trace (ps : List SProc) :
    (shutdown_agents ps).trace = termEvents ps ++ phase2Trace ps 0 := by
  unfold shutdown_agents shutdown_agentsS
  rw [phase2S_trace, phase1S_trace, phase1S_time]
  simp

lemma termEvents_isTerm (ps : List SProc) :
    ∀ e ∈ termEvents ps, e.isTerm = true := by
  intro e he
  rcases List.mem_filterMap.mp he with ⟨p, _, hp⟩
  by_cases h : p.alreadyExited <;> simp [h] at hp
  subst hp
  rfl

lemma waitEvent_not_term (p : SProc) (t : Nat) :
    (waitEvent p t).isTerm = false := by
  unfold waitEvent
  cases p.effExit with
  | none => rfl
  | some e =>
    by_cases h : e ≤ t + PROCESS_TERMINATE_TIMEOUT <;> simp [h, SEvent.isTerm]

lemma phase2Trace_not_term : ∀ (ps : List SProc) (t : Nat),
    ∀ e ∈ phase2Trace ps t, e.isTerm = false := by
  intro ps
  induction ps with
  | nil => intro t e he; simp [phase2Trace] at he
  | cons p rest ih =>
    intro t e he
    rcases List.mem_cons.mp he with h | h
    · subst h; exact waitEvent_not_term p t
    · exact ih (nextTime p t) e h

lemma waitEvent_agent (p : SProc) (t : Nat) :
    (waitEvent p t).agent = p.name := by
  unfold waitEvent
  cases p.effExit with
  | none => rfl
  | some e =>
    by_cases h : e ≤ t + PROCESS_TERMINATE_TIMEOUT <;> simp [h, SEvent.agent]

lemma phase2Trace_agent_mem : ∀ (ps : List SProc) (t : Nat),
    ∀ e ∈ phase2Trace ps t, ∃ p ∈ ps, e.agent = p.name := by
  intro ps
  induction ps with
  | nil => intro t e he; simp [phase2Trace] at he
  | cons p rest ih =>
    intro t e he
    rcases List.mem_cons.mp he with h | h
    · exact ⟨p, List.mem_cons_self p rest, by rw [h, waitEvent_agent]⟩
    · rcases ih (nextTime p t) e h with ⟨q, hq, hqa⟩
      exact ⟨q, List.mem_cons_of_mem p hq, hqa⟩

/-- Claim C2: the cooperative-terminate request is sent to every handle
still running when shutdown begins, no request goes to an already-exited
handle, and in the shutdown event sequence every terminate request
precedes every wait or kill: no waiting is interleaved with the sending
phase. -/
theorem claim_C2 (ps : List SProc) (hnd : (ps.map SProc.name).Nodup) :
    (∀ p ∈ ps, p.alreadyExited = false →
        SEvent.term p.name ∈ (shutdown_agents ps).trace) ∧
    (∀ p ∈ ps, p.alreadyExited = true →
        SEvent.term p.name ∉ (shutdown_agents ps).trace) ∧
    (∀ (i j : Nat) (ev fv : SEvent),
        (shutdown_agents ps).trace[i]? = some ev →
        (shutdown_agents ps).trace[j]? = some fv →
        ev.isTerm = true → fv.isTerm = false → i < j) := by
  have htr := shutdown_agents_trace ps
  refine ⟨?_, ?_, ?_⟩
  · intro p hp hrun
    rw [htr]
    refine List.mem_append_left _ (List.mem_filterMap.mpr ⟨p, hp, ?_⟩)
    simp [hrun]
  · intro p hp hex hmem
    rw [htr] at hmem
    rcases List.mem_append.mp hmem with h | h
    · rcases List.mem_filterMap.mp h with ⟨q, hq, hqe⟩
      by_cases hqa : q.alreadyExited <;> simp [hqa] at hqe
      have : q = p :=
        List.inj_on_of_nodup_map hnd hq hp (by rw [hqe])
      rw [this] at hqa
      exact hqa hex
    · have := phase2Trace_not_term ps 0 _ h
      simp [SEvent.isTerm] at this
  · intro i j ev fv hev hfv hit hjt
    rw [htr] at hev hfv
    have hlti : i < (termEvents ps).length := by
      by_contra hc
      push_neg at hc
      rw [List.getElem?_append_right hc] at hev
      rcases List.getElem?_eq_some_iff.mp hev with ⟨hb, hg⟩
      have hm : ev ∈ phase2Trace ps 0 := hg ▸ List.getElem_mem hb
      rw [phase2Trace_not_term ps 0 ev hm] at hit
      exact Bool.false_eq_true.mp hit
    have hgej : (termEvents ps).length ≤ j := by
      by_contra hc
      push_neg at hc
      rw [List.getElem?_append_left hc] at hfv
      rcases List.getElem?_eq_some_iff.mp hfv with ⟨hb, hg⟩
      have hm : fv ∈ termEvents ps := hg ▸ List.getElem_mem hb
      rw [termEvents_isTerm ps fv hm] at hjt
      exact Bool.true_eq_false.mp hjt
    exact Nat.lt_of_lt_of_le hlti hgej

/-- Witness for C2: one running and one already-exited handle. -/
theorem claim_C2_witness :
    SEvent.term "A" ∈ (shutdown_agents
        [⟨"A", false, some 1⟩, ⟨"B", true, some 0⟩]).trace ∧
    SEvent.term "B" ∉ (shutdown_agents
        [⟨"A", false, some 1⟩, ⟨"B", true, some 0⟩]).trace :=
  ⟨(claim_C2 [⟨"A", false, some 1⟩, ⟨"B", true, some 0⟩] (by decide)).1
      ⟨"A", false, some 1⟩ (by decide) rfl,
   (claim_C2 [⟨"A", false, some 1⟩, ⟨"B", true, some 0⟩] (by decide)).2.1
      ⟨"B", true, some 0⟩ (by decide) rfl⟩

/-
  Kill accounting for claims C3 and C4.
-/

lemma countKills_append (n : String) (t1 t2 : List SEvent) :
    countKills n (t1 ++ t2) = countKills n t1 + countKills n t2 := by
  simp [countKills, List.countP_append]

lemma countKills_termEvents (n : String) (ps : List SProc) :
    countKills n (termEvents ps) = 0 := by
  unfold countKills
  refine List.countP_eq_zero.mpr ?_
  intro e he
  have ht := termEvents_isTerm ps e he
  cases e with
  | term m => simp [isKillFor]
  | waited m t => simp [SEvent.isTerm] at ht
  | killed m t => simp [SEvent.isTerm] at ht

lemma isKillFor_waitEvent (n : String) (p : SProc) (t : Nat) :
    isKillFor n (waitEvent p t) = (decide (p.name = n) && beyondGrace p t) := by
  unfold waitEvent beyondGrace
  cases he : p.effExit with
  | none => simp [isKillFor]
  | some e =>
    by_cases h : e ≤ t + PROCESS_TERMINATE_TIMEOUT
    · have hb : ¬(t + PROCESS_TERMINATE_TIMEOUT < e) := by omega
      simp [h, hb, isKillFor]
    · have hb : t + PROCESS_TERMINATE_TIMEOUT < e := by omega
      simp [h, hb, isKillFor]

lemma countKills_phase2_absent (n : String) : ∀ (ps : List SProc) (t : Nat),
    (∀ r ∈ ps, r.name ≠ n) → countKills n (phase2Trace ps t) = 0 := by
  intro ps
  induction ps with
  | nil => intro t _; rfl
  | cons p rest ih =>
    intro t hne
    have hp : p.name ≠ n := hne p (List.mem_cons_self p rest)
    have hd : isKillFor n (waitEvent p t) = false := by
      rw [isKillFor_waitEvent]
      simp [hp]
    have htl := ih (nextTime p t) (fun r hr => hne r (List.mem_cons_of_mem p hr))
    unfold countKills at htl ⊢
    simp only [phase2Trace]
    rw [List.countP_cons, htl, hd]
    rfl

lemma countKills_phase2 (n : String) : ∀ (ps : List SProc) (t : Nat),
    (ps.map SProc.name).Nodup → ∀ p ∈ ps, p.name = n →
    countKills n (phase2Trace ps t)
      = if beyondGrace p (waitStartIn ps t n) then 1 else 0 := by
  intro ps
  induction ps with
  | nil => intro t _ p hp; exact absurd hp (List.not_mem_nil p)
  | cons q rest ih =>
    intro t hnd p hp hpn
    have hnds : (∀ x ∈ rest, ¬x.name = q.name) ∧ (rest.map SProc.name).Nodup := by
      simpa using hnd
    by_cases hq : q.name = n
    · have hpq : p = q := by
        rcases List.mem_cons.mp hp with h | h
        · exact h
        · exact absurd (hpn.trans hq.symm) (hnds.1 p h)
      subst hpq
      have hws : waitStartIn (p :: rest) t n = t := by
        simp [waitStartIn, hq]
      have htail : countKills n (phase2Trace rest (nextTime p t)) = 0 := by
        refine countKills_phase2_absent n rest (nextTime p t) ?_
        intro r hr hrn
        exact hnds.1 r hr (hrn.trans hq.symm)
      have hd : isKillFor n (waitEvent p t) = beyondGrace p t := by
        rw [isKillFor_waitEvent]
        simp [hq]
      unfold countKills at htail ⊢
      simp only [phase2Trace]
      rw [List.countP_cons, htail, hws, hd]
      cases hb : beyondGrace p t <;> simp
    · have hpr : p ∈ rest := by
        rcases List.mem_cons.mp hp with h | h
        · exact absurd (h ▸ hpn) hq
        · exact h
      have hws : waitStartIn (q :: rest) t n = waitStartIn rest (nextTime q t) n := by
        simp [waitStartIn, hq]
      have hd : isKillFor n (waitEvent q t) = false := by
        rw [isKillFor_waitEvent]
        simp [hq]
      have hih := ih (nextTime q t) hnds.2 p hpr hpn
      unfold countKills at hih ⊢
      simp only [phase2Trace]
      rw [List.countP_cons, hih, hws, hd]
      simp

lemma waitEvent_killed_inv (p : SProc) (t : Nat) (n : String) (t0 : Nat) :
    waitEvent p t = SEvent.killed n t0 →
    p.name = n ∧ t0 = t + PROCESS_TERMINATE_TIMEOUT := by
  unfold waitEvent
  split
  · split
    · intro h
      simp at h
    · intro h
      injection h with h1 h2
      exact ⟨h1, h2.symm⟩
  · intro h
    injection h with h1 h2
    exact ⟨h1, h2.symm⟩

lemma killed_time_phase2 (n : String) : ∀ (ps : List SProc) (t t0 : Nat),
    (ps.map SProc.name).Nodup →
    SEvent.killed n t0 ∈ phase2Trace ps t →
    t0 = waitStartIn ps t n + PROCESS_TERMINATE_TIMEOUT := by
  intro ps
  induction ps with
  | nil => intro t t0 _ h; simp [phase2Trace] at h
  | cons q rest ih =>
    intro t t0 hnd hmem
    have hnds : (∀ x ∈ rest, ¬x.name = q.name) ∧ (rest.map SProc.name).Nodup := by
      simpa using hnd
    simp only [phase2Trace] at hmem
    rcases List.mem_cons.mp hmem with h | h
    · rcases waitEvent_killed_inv q t n t0 h.symm with ⟨hqn, ht⟩
      rw [ht]
      simp [waitStartIn, hqn]
    · by_cases hq : q.name = n
      · exfalso
        rcases phase2Trace_agent_mem rest (nextTime q t) _ h with ⟨r, hr, hra⟩
        simp [SEvent.agent] at hra
        exact hnds.1 r hr (hra.symm.trans hq.symm)
      · have hih := ih (nextTime q t) t0 hnds.2 h
        rw [hih]
        simp [waitStartIn, hq]

lemma killed_not_mem_termEvents (n : String) (t0 : Nat) (ps : List SProc) :
    SEvent.killed n t0 ∉ termEvents ps := by
  intro h
  have := termEvents_isTerm ps _ h
  simp [SEvent.isTerm] at this

lemma countKills_shutdown (ps : List SProc) (hnd : (ps.map SProc.name).Nodup)
    (p : SProc) (hp : p ∈ ps) :
    countKills p.name (shutdown_agents ps).trace
      = if beyondGrace p (waitStartIn ps 0 p.name) then 1 else 0 := by
  rw [shutdown_agents_trace, countKills_append, countKills_termEvents,
    countKills_phase2 p.name ps 0 hnd p hp rfl]
  simp

/-- Counterexample to claim C3 as stated: in the session
[A exits 4 units after terminate, B exits 7 units after terminate] the
grace period is 5, so a per-handle deadline of exactly 5 units from the
terminate request (all requests go out at shutdown time 0) would require
B to be force-killed; the code waits for A first (until time 4), so B's
wait only times out at 4 + 5 = 9, B's exit at 7 is accepted and no kill
is ever issued. -/
theorem claim_C3_cex :
    ¬ graceFromSendDeadline
        [⟨"A", false, some 4⟩, ⟨"B", false, some 7⟩] := by
  intro h
  have hb := h ⟨"B", false, some 7⟩ (by decide) rfl
  revert hb
  decide

/-- Claim C3 amended: the effective per-handle timeout before escalation
is exactly the grace period measured from when the sequential wait on
that handle begins (each handle's wait starts when the previous handle's
wait returned), not from when its terminate request was sent: every kill
of a handle happens exactly at its wait start plus the grace period, and
a handle that exits within the grace period of its terminate request
(sent at shutdown time 0) is never killed — so earlier handles' slow
shutdowns can extend, but never truncate, a later handle's effective
window. -/
theorem claim_C3_amended (ps : List SProc) (hnd : (ps.map SProc.name).Nodup)
    (p : SProc) (hp : p ∈ ps) :
    (∀ t0 : Nat, SEvent.killed p.name t0 ∈ (shutdown_agents ps).trace →
        t0 = waitStartIn ps 0 p.name + PROCESS_TERMINATE_TIMEOUT) ∧
    (∀ e : Nat, p.effExit = some e → e ≤ PROCESS_TERMINATE_TIMEOUT →
        countKills p.name (shutdown_agents ps).trace = 0) := by
  constructor
  · intro t0 hmem
    rw [shutdown_agents_trace] at hmem
    rcases List.mem_append.mp hmem with h | h
    · exact absurd h (killed_not_mem_termEvents _ _ _)
    · exact killed_time_phase2 p.name ps 0 t0 hnd h
  · intro e he hle
    rw [countKills_shutdown ps hnd p hp]
    have hb : beyondGrace p (waitStartIn ps 0 p.name) = false := by
      unfold beyondGrace
      rw [he]
      simp
      omega
    rw [hb]
    simp

/-- Witness for the amended C3: D ignores terminate and is killed at
exactly its wait start plus the grace period; E exits 2 units after its
terminate request and is never killed. -/
theorem claim_C3_amended_witness :
    (5 : Nat) = waitStartIn [⟨"D", false, none⟩, ⟨"E", false, some 2⟩] 0 "D"
        + PROCESS_TERMINATE_TIMEOUT ∧
    countKills "E" (shutdown_agents
        [⟨"D", false, none⟩, ⟨"E", false, some 2⟩]).trace = 0 :=
  ⟨(claim_C3_amended [⟨"D", false, none⟩, ⟨"E", false, some 2⟩] (by decide)
      ⟨"D", false, none⟩ (by decide)).1 5 (by decide),
   (claim_C3_amended [⟨"D", false, none⟩, ⟨"E", false, some 2⟩] (by decide)
      ⟨"E", false, some 2⟩ (by decide)).2 2 rfl (by decide)⟩

/-- Counterexample to claim C4 as stated: in the session
[A exits 5 units after terminate, C exits 8 units after terminate], C
does not exit within the grace period (5 units) after its terminate
request, so the claim demands exactly one forced kill for C; the code
waits for A until time 5 first, so C's wait window reaches 5 + 5 = 10,
its exit at 8 is accepted and zero kills are issued for C. -/
theorem claim_C4_cex :
    ¬ killIffNotWithinGrace
        [⟨"A", false, some 5⟩, ⟨"C", false, some 8⟩] := by
  intro h
  have hc := (h ⟨"C", false, some 8⟩ (by decide) rfl).2
  revert hc
  decide

/-- Claim C4 amended: for every handle that exits within the grace
period measured from when the sequential wait on that handle begins, no
forced kill is issued for it; for every handle that does not exit within
that window (or never exits), exactly one forced kill is issued — never
more than one, so there are no retries beyond the single escalation. -/
theorem claim_C4_amended (ps : List SProc) (hnd : (ps.map SProc.name).Nodup)
    (p : SProc) (hp : p ∈ ps) :
    countKills p.name (shutdown_agents ps).trace
      = if beyondGrace p (waitStartIn ps 0 p.name) then 1 else 0 :=
  countKills_shutdown ps hnd p hp

/-- Witness for the amended C4: F never exits and receives exactly one
kill; G exits within its wait window and receives none. -/
theorem claim_C4_amended_witness :
    countKills "F" (shutdown_agents
        [⟨"F", false, none⟩, ⟨"G", false, some 1⟩]).trace
      = (if beyondGrace ⟨"F", false, none⟩
          (waitStartIn [⟨"F", false, none⟩, ⟨"G", false, some 1⟩] 0 "F")
         then 1 else 0) ∧
    countKills "G" (shutdown_agents
        [⟨"F", false, none⟩, ⟨"G", false, some 1⟩]).trace
      = (if beyondGrace ⟨"G", false, some 1⟩
          (waitStartIn [⟨"F", false, none⟩, ⟨"G", false, some 1⟩] 0 "G")
         then 1 else 0) :=
  ⟨claim_C4_amended [⟨"F", false, none⟩, ⟨"G", false, some 1⟩] (by decide)
      ⟨"F", false, none⟩ (by decide),
   claim_C4_amended [⟨"F", false, none⟩, ⟨"G", false, some 1⟩] (by decide)
      ⟨"G", false, some 1⟩ (by decide)⟩

/-
  Poll-cycle lemmas for the monitor.
-/

lemma pollList_procs (t : Nat) : ∀ (ps : List MProc) (a : Nat) (st : MonState),
    (pollList t ps (a, st)).2.procs = st.procs := by
  intro ps
  induction ps with
  | nil => intro a st; rfl
  | cons p rest ih =>
    intro a st
    cases hp : pollAt p t with
    | none => simp [pollList, hp, ih]
    | some c =>
      by_cases hm : p.name ∈ st.reported <;> simp [pollList, hp, hm, ih]

lemma pollList_alive (t : Nat) : ∀ (ps : List MProc) (a : Nat) (st : MonState),
    (pollList t ps (a, st)).1 = a + ps.countP (fun p => (pollAt p t).isNone) := by
  intro ps
  induction ps with
  | nil => intro a st; simp [pollList]
  | cons p rest ih =>
    intro a st
    cases hp : pollAt p t with
    | none =>
      rw [List.countP_cons]
      simp [pollList, hp, ih]
      omega
    | some c =>
      rw [List.countP_cons]
      by_cases hm : p.name ∈ st.reported <;> simp [pollList, hp, hm, ih]

lemma pollList_reported (t : Nat) : ∀ (ps : List MProc) (a : Nat) (st : MonState)
    (n : String),
    n ∈ (pollList t ps (a, st)).2.reported ↔
      n ∈ st.reported ∨ ∃ p ∈ ps, p.name = n ∧ (pollAt p t).isSome := by
  intro ps
  induction ps with
  | nil => intro a st n; simp [pollList]
  | cons p rest ih =>
    intro a st n
    cases hp : pollAt p t with
    | none =>
      simp only [pollList, hp]
      rw [ih]
      constructor
      · rintro (h | ⟨q, hq, hqn, hqs⟩)
        · exact Or.inl h
        · exact Or.inr ⟨q, List.mem_cons_of_mem p hq, hqn, hqs⟩
      · rintro (h | ⟨q, hq, hqn, hqs⟩)
        · exact Or.inl h
        · rcases List.mem_cons.mp hq with rfl | hq2
          · rw [hp] at hqs
            simp at hqs
          · exact Or.inr ⟨q, hq2, hqn, hqs⟩
    | some c =>
      by_cases hm : p.name ∈ st.reported
      · simp only [pollList, hp, if_pos hm]
        rw [ih]
        constructor
        · rintro (h | ⟨q, hq, hqn, hqs⟩)
          · exact Or.inl h
          · exact Or.inr ⟨q, List.mem_cons_of_mem p hq, hqn, hqs⟩
        · rintro (h | ⟨q, hq, hqn, hqs⟩)
          · exact Or.inl h
          · rcases List.mem_cons.mp hq with rfl | hq2
            · exact Or.inl (hqn ▸ hm)
            · exact Or.inr ⟨q, hq2, hqn, hqs⟩
      · simp only [pollList, hp, if_neg hm]
        rw [ih]
        constructor
        · rintro (h | ⟨q, hq, hqn, hqs⟩)
          · rcases List.mem_cons.mp h with rfl | h2
            · exact Or.inr ⟨p, List.mem_cons_self p rest, rfl, by simp [hp]⟩
            · exact Or.inl h2
          · exact Or.inr ⟨q, List.mem_cons_of_mem p hq, hqn, hqs⟩
        · rintro (h | ⟨q, hq, hqn, hqs⟩)
          · exact Or.inl (List.mem_cons_of_mem _ h)
          · rcases List.mem_cons.mp hq with rfl | hq2
            · exact Or.inl (hqn ▸ List.mem_cons_self q.name st.reported)
            · exact Or.inr ⟨q, hq2, hqn, hqs⟩

lemma pollList_count_absent (t : Nat) : ∀ (ps : List MProc) (a : Nat)
    (st : MonState) (n : String),
    (∀ q ∈ ps, q.name ≠ n) →
    countReports n (pollList t ps (a, st)).2.trace = countReports n st.trace := by
  intro ps
  induction ps with
  | nil => intro a st n _; rfl
  | cons p rest ih =>
    intro a st n hne
    have hrest : ∀ q ∈ rest, q.name ≠ n :=
      fun q hq => hne q (List.mem_cons_of_mem p hq)
    have hpn : p.name ≠ n := hne p (List.mem_cons_self p rest)
    cases hp : pollAt p t with
    | none => simp only [pollList, hp]; exact ih _ _ _ hrest
    | some c =>
      by_cases hm : p.name ∈ st.reported
      · simp only [pollList, hp, if_pos hm]
        exact ih _ _ _ hrest
      · simp only [pollList, hp, if_neg hm]
        rw [ih _ _ _ hrest, countReports_append, countReports_handle]
        simp [hpn]

lemma pollList_count (t : Nat) : ∀ (ps : List MProc) (a : Nat) (st : MonState)
    (p : MProc), (ps.map MProc.name).Nodup → p ∈ ps →
    countReports p.name (pollList t ps (a, st)).2.trace
      = countReports p.name st.trace
        + (if (pollAt p t).isSome = true ∧ p.name ∉ st.reported then 1 else 0) := by
  intro ps
  induction ps with
  | nil => intro a st p _ hp; exact absurd hp (List.not_mem_nil p)
  | cons q rest ih =>
    intro a st p hnd hp
    have hnds : (∀ x ∈ rest, ¬x.name = q.name) ∧ (rest.map MProc.name).Nodup := by
      simpa using hnd
    rcases List.mem_cons.mp hp with rfl | hpr
    · have habs : ∀ r ∈ rest, r.name ≠ p.name := fun r hr => hnds.1 r hr
      cases hq : pollAt p t with
      | none =>
        simp only [pollList, hq]
        rw [pollList_count_absent t rest _ _ _ habs]
        simp [hq]
      | some c =>
        by_cases hm : p.name ∈ st.reported
        · simp only [pollList, hq, if_pos hm]
          rw [pollList_count_absent t rest _ _ _ habs]
          simp [hm]
        · simp only [pollList, hq, if_neg hm]
          rw [pollList_count_absent t rest _ _ _ habs,
            countReports_append, countReports_handle]
          simp [hq, hm]
    · have hqp : q.name ≠ p.name := fun h =>
        hnds.1 p hpr (by rw [h])
      cases hq : pollAt q t with
      | none =>
        simp only [pollList, hq]
        exact ih _ _ _ hnds.2 hpr
      | some c =>
        by_cases hm : q.name ∈ st.reported
        · simp only [pollList, hq, if_pos hm]
          exact ih _ _ _ hnds.2 hpr
        · simp only [pollList, hq, if_neg hm]
          rw [ih _ _ _ hnds.2 hpr, countReports_append, countReports_handle]
          have hmem : (p.name ∉ q.name :: st.reported) ↔ (p.name ∉ st.reported) := by
            simp [hqp.symm]
          simp only [hmem]
          simp [hqp]

/-
  Monitor loop lemmas.
-/

lemma countReports_interrupted (n : String) :
    countReports n [LogEntry.interrupted] = 0 := rfl

lemma countReports_allExited (n : String) :
    countReports n [LogEntry.allExited] = 0 := rfl

lemma pollAt_isSome_iff (p : MProc) (t : Nat) :
    (pollAt p t).isSome = observedBy p (t + 1) := by
  cases he : p.exitAt with
  | none => simp [pollAt, observedBy, he]
  | some e =>
    by_cases h : e ≤ t
    · have hlt : e < t + 1 := by omega
      simp [pollAt, observedBy, he, h, hlt]
    · have hlt : ¬e < t + 1 := by omega
      simp [pollAt, observedBy, he, h, hlt]

lemma observedBy_mono (p : MProc) (t : Nat) :
    observedBy p t = true → observedBy p (t + 1) = true := by
  cases he : p.exitAt with
  | none => simp [observedBy, he]
  | some e =>
    simp [observedBy, he]
    omega

lemma exists_poll_iff (procs : List MProc) (hnd : (procs.map MProc.name).Nodup)
    (p : MProc) (hp : p ∈ procs) (t : Nat) :
    (∃ q ∈ procs, q.name = p.name ∧ (pollAt q t).isSome) ↔
      (pollAt p t).isSome = true := by
  constructor
  · rintro ⟨q, hq, hqn, hqs⟩
    have hqp : q = p := List.inj_on_of_nodup_map hnd hq hp hqn
    rwa [hqp] at hqs
  · intro hs
    exact ⟨p, hp, rfl, hs⟩

lemma inv_to_goal (procs : List MProc) (tr : List LogEntry) (rep : List String)
    (k : Nat)
    (h1 : ∀ p ∈ procs, countReports p.name tr = if p.name ∈ rep then 1 else 0)
    (h2 : ∀ p ∈ procs, p.name ∈ rep ↔ observedBy p k = true) :
    ∀ p ∈ procs, countReports p.name tr
      = if observedBy p k = true then 1 else 0 := by
  intro p hp
  rw [h1 p hp]
  by_cases hm : p.name ∈ rep
  · rw [if_pos hm, if_pos ((h2 p hp).mp hm)]
  · rw [if_neg hm, if_neg (fun hb => hm ((h2 p hp).mpr hb))]

lemma pollCycle_invariants (procs : List MProc)
    (hnd : (procs.map MProc.name).Nodup) (t : Nat) (st : MonState)
    (hstp : st.procs = procs)
    (h1 : ∀ p ∈ procs, countReports p.name st.trace
        = if p.name ∈ st.reported then 1 else 0)
    (h2 : ∀ p ∈ procs, p.name ∈ st.reported ↔ observedBy p t = true) :
    (pollCycle t st).2.procs = procs ∧
    (∀ p ∈ procs, countReports p.name (pollCycle t st).2.trace
        = if p.name ∈ (pollCycle t st).2.reported then 1 else 0) ∧
    (∀ p ∈ procs, p.name ∈ (pollCycle t st).2.reported
        ↔ observedBy p (t + 1) = true) := by
  have hcyc : pollCycle t st = pollList t procs (0, st) := by
    unfold pollCycle
    rw [hstp]
  have hrep : ∀ p ∈ procs, (p.name ∈ (pollCycle t st).2.reported ↔
      p.name ∈ st.reported ∨ (pollAt p t).isSome = true) := by
    intro p hp
    rw [hcyc, pollList_reported]
    constructor
    · rintro (h | h)
      · exact Or.inl h
      · exact Or.inr ((exists_poll_iff procs hnd p hp t).mp h)
    · rintro (h | h)
      · exact Or.inl h
      · exact Or.inr ((exists_poll_iff procs hnd p hp t).mpr h)
  have hrep2 : ∀ p ∈ procs, (p.name ∈ (pollCycle t st).2.reported ↔
      observedBy p (t + 1) = true) := by
    intro p hp
    rw [hrep p hp]
    constructor
    · rintro (h | h)
      · exact observedBy_mono p t ((h2 p hp).mp h)
      · rwa [pollAt_isSome_iff] at h
    · intro h
      by_cases hm : p.name ∈ st.reported
      · exact Or.inl hm
      · refine Or.inr ?_
        rwa [pollAt_isSome_iff]
  refine ⟨by rw [hcyc, pollList_procs, hstp], ?_, hrep2⟩
  intro p hp
  have hcount : countReports p.name (pollCycle t st).2.trace
      = countReports p.name st.trace
        + (if (pollAt p t).isSome = true ∧ p.name ∉ st.reported then 1 else 0) := by
    rw [hcyc]
    exact pollList_count t procs 0 st p hnd hp
  rw [hcount, h1 p hp]
  by_cases hm : p.name ∈ st.reported
  · rw [if_pos hm, if_pos ((hrep p hp).mpr (Or.inl hm)),
      if_neg (fun hck => hck.2 hm)]
  · rw [if_neg hm]
    by_cases hs : (pollAt p t).isSome = true
    · rw [if_pos ⟨hs, hm⟩, if_pos ((hrep p hp).mpr (Or.inr hs))]
    · rw [if_neg (fun hck => hs hck.1),
        if_neg (fun hin => (by
          rcases (hrep p hp).mp hin with h | h
          · exact hm h
          · exact hs h))]

lemma monitorLoop_count (procs : List MProc) (cancelAt : Option Nat)
    (hnd : (procs.map MProc.name).Nodup) :
    ∀ (fuel t : Nat) (st : MonState), st.procs = procs →
    (∀ p ∈ procs, countReports p.name st.trace
        = if p.name ∈ st.reported then 1 else 0) →
    (∀ p ∈ procs, p.name ∈ st.reported ↔ observedBy p t = true) →
    ∀ p ∈ procs,
      countReports p.name (monitorLoop cancelAt fuel t st).state.trace
        = if observedBy p (monitorLoop cancelAt fuel t st).cyclesRun = true
          then 1 else 0 := by
  intro fuel
  induction fuel with
  | zero =>
    intro t st hstp h1 h2
    exact inv_to_goal procs st.trace st.reported t h1 h2
  | succ fuel ih =>
    intro t st hstp h1 h2 p hp
    by_cases hc : cancelHits cancelAt t = true
    · simp only [monitorLoop, hc, if_pos]
      rw [countReports_append, countReports_interrupted, Nat.add_zero]
      exact inv_to_goal procs st.trace st.reported t h1 h2 p hp
    · rcases pollCycle_invariants procs hnd t st hstp h1 h2 with ⟨hpr, hc1, hc2⟩
      by_cases ha : (pollCycle t st).1 = 0
      · simp only [monitorLoop, hc, ha, if_pos, if_neg, Bool.false_eq_true,
          if_false, reduceIte]
        rw [countReports_append, countReports_allExited, Nat.add_zero]
        exact inv_to_goal procs (pollCycle t st).2.trace
          (pollCycle t st).2.reported (t + 1) hc1 hc2 p hp
      · simp only [monitorLoop, hc, ha, Bool.false_eq_true, if_false, reduceIte]
        exact ih (t + 1) (pollCycle t st).2 hpr hc1 hc2 p hp

lemma pollCycle_procs (t : Nat) (st : MonState) :
    (pollCycle t st).2.procs = st.procs := by
  unfold pollCycle
  exact pollList_procs t st.procs 0 st

lemma pollCycle_alive (t : Nat) (st : MonState) :
    (pollCycle t st).1 = st.procs.countP (fun p => (pollAt p t).isNone) := by
  unfold pollCycle
  rw [pollList_alive]
  omega

lemma monitorLoop_procs (cancelAt : Option Nat) : ∀ (fuel t : Nat) (st : MonState),
    (monitorLoop cancelAt fuel t st).state.procs = st.procs := by
  intro fuel
  induction fuel with
  | zero => intro t st; rfl
  | succ fuel ih =>
    intro t st
    by_cases hc : cancelHits cancelAt t = true
    · simp only [monitorLoop, hc, if_pos]
    · by_cases ha : (pollCycle t st).1 = 0
      · simp only [monitorLoop, hc, ha, Bool.false_eq_true, if_false, reduceIte]
        exact pollCycle_procs t st
      · simp only [monitorLoop, hc, ha, Bool.false_eq_true, if_false, reduceIte]
        rw [ih (t + 1) (pollCycle t st).2, pollCycle_procs]

lemma monitorLoop_natural (procs : List MProc) (cancelAt : Option Nat) (M : Nat)
    (hex : ∀ p ∈ procs, ∃ e, p.exitAt = some e ∧ e ≤ M)
    (hc : ∀ c, cancelAt = some c → M < c) :
    ∀ (fuel t : Nat) (st : MonState), st.procs = procs → t ≤ M → M - t < fuel →
    (monitorLoop cancelAt fuel t st).outcome = MonOutcome.natural := by
  intro fuel
  induction fuel with
  | zero => intro t st _ _ hfuel; exact absurd hfuel (Nat.not_lt_zero _)
  | succ fuel ih =>
    intro t st hstp htM hfuel
    have hch : ¬cancelHits cancelAt t = true := by
      cases hca : cancelAt with
      | none => simp [cancelHits]
      | some c =>
        have := hc c hca
        simp [cancelHits]
        omega
    by_cases ha : (pollCycle t st).1 = 0
    · simp only [monitorLoop, hch, ha, Bool.false_eq_true, if_false, reduceIte]
    · have hstill : ∃ p ∈ procs, (pollAt p t).isNone = true := by
        by_contra hno
        push_neg at hno
        apply ha
        rw [pollCycle_alive, hstp]
        refine List.countP_eq_zero.mpr ?_
        intro q hq hqn
        exact absurd (by simpa using hqn) (by simpa using hno q hq)
      rcases hstill with ⟨p, hpp, hpn⟩
      rcases hex p hpp with ⟨e, hee, heM⟩
      have htlt : t < M := by
        by_cases hle : e ≤ t
        · simp [pollAt, hee, hle] at hpn
        · omega
      simp only [monitorLoop, hch, ha, Bool.false_eq_true, if_false, reduceIte]
      refine ih (t + 1) (pollCycle t st).2 ?_ (by omega) (by omega)
      rw [pollCycle_procs, hstp]

lemma monitorLoop_cancel_source (cancelAt : Option Nat) :
    ∀ (fuel t : Nat) (st : MonState),
    (monitorLoop cancelAt fuel t st).outcome = MonOutcome.cancelled →
    ∃ c, cancelAt = some c := by
  intro fuel
  induction fuel with
  | zero =>
    intro t st h
    simp [monitorLoop] at h
  | succ fuel ih =>
    intro t st h
    by_cases hc : cancelHits cancelAt t = true
    · cases hca : cancelAt with
      | none =>
        rw [hca] at hc
        simp [cancelHits] at hc
      | some c => exact ⟨c, rfl⟩
    · by_cases ha : (pollCycle t st).1 = 0
      · simp only [monitorLoop, hc, ha, Bool.false_eq_true, if_false, reduceIte] at h
        simp at h
      · simp only [monitorLoop, hc, ha, Bool.false_eq_true, if_false, reduceIte] at h
        exact ih (t + 1) (pollCycle t st).2 h

/-
  Claims C1, C5 and C10.
-/

/-- Claim C1: in any session of handles with distinct names, the monitor
emits exactly one failure report for every process whose exit falls
within the executed poll cycles — never zero for such a process, and
never more than one for any process, no matter how many later cycles
re-observe the exit or how the poll interval relates to exit timing. -/
theorem claim_C1 (procs : List MProc) (cancelAt : Option Nat) (fuel : Nat)
    (_hne : procs ≠ []) (hnd : (procs.map MProc.name).Nodup)
    (p : MProc) (hp : p ∈ procs) :
    (observedBy p (monitor_processes procs cancelAt fuel).run.cyclesRun = true →
      countReports p.name
        (monitor_processes procs cancelAt fuel).run.state.trace = 1) ∧
    countReports p.name
      (monitor_processes procs cancelAt fuel).run.state.trace ≤ 1 := by
  have hr : (monitor_processes procs cancelAt fuel).run
      = monitorLoop cancelAt fuel 0 ⟨procs, [], []⟩ := rfl
  have h := monitorLoop_count procs cancelAt hnd fuel 0 ⟨procs, [], []⟩ rfl
    (fun q _ => by simp [countReports])
    (fun q _ => by
      cases hqe : q.exitAt with
      | none => simp [observedBy, hqe]
      | some e => simp [observedBy, hqe]) p hp
  rw [hr]
  constructor
  · intro hobs
    rw [h, if_pos hobs]
  · rw [h]
    split <;> omega

/-- Witness for C1: one agent exiting at cycle 0 with fuel 3, reported
exactly once. -/
theorem claim_C1_witness :
    countReports "a"
      (monitor_processes [⟨"a", some 0, 1, "oops"⟩] none 3).run.state.trace = 1 ∧
    countReports "a"
      (monitor_processes [⟨"a", some 0, 1, "oops"⟩] none 3).run.state.trace ≤ 1 :=
  ⟨(claim_C1 [⟨"a", some 0, 1, "oops"⟩] none 3 (by decide) (by decide)
      ⟨"a", some 0, 1, "oops"⟩ (by decide)).1 (by decide),
   (claim_C1 [⟨"a", some 0, 1, "oops"⟩] none 3 (by decide) (by decide)
      ⟨"a", some 0, 1, "oops"⟩ (by decide)).2⟩

/-- Claim C5: when every handle exits on its own within the polled run
(all exits by cycle M, any cancellation strictly later, enough fuel),
the monitor ends naturally and shutdown_agents is never invoked; and
shutdown_agents is invoked only when an external cancellation signal
exists. -/
theorem claim_C5 (procs : List MProc) (cancelAt : Option Nat) (fuel M : Nat) :
    ((∀ p ∈ procs, ∃ e, p.exitAt = some e ∧ e ≤ M) →
     (∀ c, cancelAt = some c → M < c) → M < fuel →
      (monitor_processes procs cancelAt fuel).run.outcome = MonOutcome.natural ∧
      (monitor_processes procs cancelAt fuel).shutdownInvoked = false) ∧
    ((monitor_processes procs cancelAt fuel).shutdownInvoked = true →
      ∃ c, cancelAt = some c) := by
  have hr : (monitor_processes procs cancelAt fuel).run
      = monitorLoop cancelAt fuel 0 ⟨procs, [], []⟩ := rfl
  have hs : (monitor_processes procs cancelAt fuel).shutdownInvoked
      = decide ((monitorLoop cancelAt fuel 0 ⟨procs, [], []⟩).outcome
          = MonOutcome.cancelled) := rfl
  constructor
  · intro hex hc hfuel
    have hout := monitorLoop_natural procs cancelAt M hex hc fuel 0
      ⟨procs, [], []⟩ rfl (Nat.zero_le M) (by omega)
    refine ⟨by rw [hr]; exact hout, ?_⟩
    rw [hs, hout]
    decide
  · intro hinv
    rw [hs] at hinv
    exact monitorLoop_cancel_source cancelAt fuel 0 ⟨procs, [], []⟩
      (of_decide_eq_true hinv)

/-- Witness for C5: a session whose single agent exits at cycle 0 with
no cancellation ends naturally without shutdown; and a cancelled run
(cancel at cycle 0, agent never exits) implies a cancellation signal
exists. -/
theorem claim_C5_witness :
    ((monitor_processes [⟨"a", some 0, 0, ""⟩] none 2).run.outcome
        = MonOutcome.natural ∧
      (monitor_processes [⟨"a", some 0, 0, ""⟩] none 2).shutdownInvoked = false) ∧
    ∃ c, (some 0 : Option Nat) = some c :=
  ⟨(claim_C5 [⟨"a", some 0, 0, ""⟩] none 2 0).1
      (by
        intro p hp
        refine ⟨0, ?_, Nat.le_refl 0⟩
        rcases List.mem_singleton.mp hp with rfl
        rfl)
      (by intro c hc; cases hc) (by omega),
   (claim_C5 [⟨"b", none, 0, ""⟩] (some 0) 2 7).2 (by decide)⟩

/-- Claim C10: neither the monitor nor the shutdown coordinator adds,
removes or reorders entries of the handle set — the (name, process)
sequence established at launch is the same before and after
monitor_processes and shutdown_agents run; only reporting state and the
trace change. -/
theorem claim_C10 :
    (∀ (procs : List MProc) (cancelAt : Option Nat) (fuel : Nat),
        (monitor_processes procs cancelAt fuel).run.state.procs = procs) ∧
    (∀ (cancelAt : Option Nat) (fuel t : Nat) (st : MonState),
        (monitorLoop cancelAt fuel t st).state.procs = st.procs) ∧
    (∀ ps : List SProc, (shutdown_agents ps).procs = ps) ∧
    (∀ st : SState, (shutdown_agentsS st).procs = st.procs) := by
  have hsh : ∀ st : SState, (shutdown_agentsS st).procs = st.procs := by
    intro st
    unfold shutdown_agentsS
    rw [phase2S_procs, phase1S_procs]
  refine ⟨?_, ?_, ?_, hsh⟩
  · intro procs cancelAt fuel
    exact monitorLoop_procs cancelAt fuel 0 ⟨procs, [], []⟩
  · intro cancelAt fuel t st
    exact monitorLoop_procs cancelAt fuel t st
  · intro ps
    exact hsh ⟨ps, [], 0⟩

end StartMockAgents
